import Mathlib

/-!
Verification development for the HQ document scanner and watcher
(src-tauri/src/lib.rs).

The filesystem is modelled as a finite association list from absolute
paths (lists of segments) to entries: directories, regular files (with
the title that extract_md_title would find and the modified timestamp),
and symbolic links.  Path resolution follows symlink chains with bounded
fuel, like the OS does (ELOOP).  The Rust functions scan_dir_recursive,
scan_hq_directory, expand_scope, the watcher callback of start_watching,
and qmd_search are translated on top of these primitives; external
effects (the debouncer, OS watch registration, the qmd binary) are
oracles supplied as explicit parameters.
-/

namespace HqDocs

/-- A filesystem path, as the list of its components. -/
abbrev FsPath := List String

/-- Split a list of characters on a separator character.  Used to model
Rust's str::split. -/
def splitSeg (sep : Char) : List Char → List (List Char)
  | [] => [[]]
  | c :: cs =>
    if c = sep then [] :: splitSeg sep cs
    else
      match splitSeg sep cs with
      | [] => [[c]]
      | seg :: rest => (c :: seg) :: rest

/-- Model of splitting a scope string on the slash separator, as the Rust
code does with scope.split('/'). -/
def splitOnSlash (s : String) : List String :=
  (splitSeg '/' s.data).map (fun l => String.mk l)

/-- Model of name.starts_with('.'). -/
def startsWithDot (s : String) : Bool :=
  match s.data with
  | [] => false
  | c :: _ => c == '.'

/-- Model of name.ends_with(".md"). -/
def endsWithDotMd (s : String) : Bool :=
  s.data.drop (s.data.length - 3) == ['.', 'm', 'd']

/-- Model of Rust str::trim (strip whitespace from both ends). -/
def rustTrim (s : String) : String :=
  String.mk (((s.data.dropWhile Char.isWhitespace).reverse.dropWhile Char.isWhitespace).reverse)

/-- Model of Rust str::lines (split on the newline character). -/
def linesOf (s : String) : List String :=
  (splitSeg '\n' s.data).map (fun l => String.mk l)

/-- Strict lexicographic comparison of character lists; byte order on
UTF-8 agrees with code-point order, so this models OsStr comparison. -/
def charListLt : List Char → List Char → Bool
  | [], [] => false
  | [], _ :: _ => true
  | _ :: _, [] => false
  | a :: as, b :: bs => if a < b then true else if b < a then false else charListLt as bs

/-- Strict case-sensitive lexicographic order on names, modelling
OsString::cmp as used by the entry sort. -/
def nameLt (a b : String) : Bool := charListLt a.data b.data

/-- Render a path the way to_string_lossy would (joining with slashes). -/
def pathToString (p : FsPath) : String := String.intercalate "/" p

/-- A filesystem object: directory, regular file, or symbolic link.  A
file carries the title extract_md_title would return and the modified
time; a directory carries its modified time. -/
inductive Entry where
  | dir (modified : Option Nat)
  | file (title : Option String) (modified : Option Nat)
  | symlink (target : FsPath)
deriving DecidableEq

/-- The direct (symlink-unfollowed) type of an entry, as reported by
DirEntry::file_type. -/
inductive Dtype where
  | dir
  | file
  | symlink
deriving DecidableEq

/-- Direct type of an entry. -/
def entryDtype : Entry → Dtype
  | .dir _ => .dir
  | .file _ _ => .file
  | .symlink _ => .symlink

/-- A finite filesystem: an association list from absolute paths to
entries.  List order is the directory-listing order. -/
structure FS where
  entries : List (FsPath × Entry)
deriving DecidableEq

/-- Direct lookup of a path, not following a symlink at the final
component. -/
def lookup (fs : FS) (p : FsPath) : Option Entry :=
  (fs.entries.find? (fun kv => kv.1 == p)).map (fun kv => kv.2)

/-- Follow symlink chains at the looked-up path, with bounded fuel
(the OS bounds symlink chains the same way, reporting ELOOP). -/
def resolveE (fs : FS) : Nat → FsPath → Option (FsPath × Entry)
  | 0, _ => none
  | fuel + 1, p =>
    match lookup fs p with
    | some (Entry.symlink t) => resolveE fs fuel t
    | some e => some (p, e)
    | none => none

/-- Symlink chain bound. -/
def RESOLVE_FUEL : Nat := 64

/-- Resolve a path to its canonical form and final entry. -/
def resolve (fs : FS) (p : FsPath) : Option (FsPath × Entry) :=
  resolveE fs RESOLVE_FUEL p

/-- Model of fs::canonicalize: the fully resolved path, or failure. -/
def canonicalize (fs : FS) (p : FsPath) : Option FsPath :=
  (resolve fs p).map (fun qe => qe.1)

/-- Model of fs::metadata: the entry behind the path, following
symlinks. -/
def metadata (fs : FS) (p : FsPath) : Option Entry :=
  (resolve fs p).map (fun qe => qe.2)

/-- Model of Path::exists (metadata-based, follows symlinks). -/
def pathExists (fs : FS) (p : FsPath) : Bool :=
  (resolve fs p).isSome

/-- Model of Path::is_dir (metadata-based, follows symlinks). -/
def isDir (fs : FS) (p : FsPath) : Bool :=
  match metadata fs p with
  | some (Entry.dir _) => true
  | _ => false

/-- Model of get_modified_secs: modified time from fs::metadata. -/
def get_modified_secs (fs : FS) (p : FsPath) : Option Nat :=
  match metadata fs p with
  | some (Entry.dir m) => m
  | some (Entry.file _ m) => m
  | _ => none

/-- Names of the direct children of a (resolved) directory path, in
directory-listing order. -/
def childNames (fs : FS) (q : FsPath) : List String :=
  fs.entries.filterMap (fun kv =>
    match kv.1.getLast? with
    | some n => if kv.1.dropLast == q then some n else none
    | none => none)

/-- One entry produced by fs::read_dir: its file name, its path as the
queried directory joined with the name, and its direct type. -/
structure DirEntry where
  name : String
  epath : FsPath
  dtype : Option Dtype
deriving DecidableEq

/-- Model of fs::read_dir: opendir follows symlinks on the queried path;
each yielded entry's path is the queried (unresolved) path joined with
the entry name, while its d_type is the direct type under the resolved
directory. -/
def read_dir (fs : FS) (p : FsPath) : Option (List DirEntry) :=
  match resolve fs p with
  | some (q, Entry.dir _) =>
    some ((childNames fs q).map (fun n =>
      { name := n, epath := p ++ [n], dtype := (lookup fs (q ++ [n])).map entryDtype }))
  | _ => none

/-- Denylist shared by scanning and watching (WATCH_EXCLUDES in the
source). -/
def WATCH_EXCLUDES : List String :=
  ["node_modules", ".git", "dist", ".next", ".turbo", ".vercel", "target", ".DS_Store", "thumbs.db"]

/-- Model of should_exclude: the matches! disjunction over the fixed
denylist, or a leading dot. -/
def should_exclude (name : String) : Bool :=
  (name == "node_modules" || (name == ".git" || (name == "dist" || (name == ".next" ||
    (name == ".turbo" || (name == ".vercel" || (name == "target" || (name == ".DS_Store" ||
      name == "thumbs.db")))))))) || startsWithDot name

/-- The per-component test applied inside the watch callback: membership
in WATCH_EXCLUDES or a leading dot. -/
def watchComponentExcluded (name : String) : Bool :=
  WATCH_EXCLUDES.any (fun ex => name == ex) || startsWithDot name

/-- The watch callback's whole-path filter: any normal component
excluded. -/
def watchSkip (p : FsPath) : Bool :=
  p.any watchComponentExcluded

/-- A node of the scanned file tree (FileTreeNode in the source).  The
path is kept as a segment list; the Rust code stores the slash-joined
rendering of the same path. -/
inductive FileTreeNode where
  | mk (name : String) (path : FsPath) (is_directory : Bool) (title : Option String)
       (children : List FileTreeNode) (depth : Nat) (file_count : Nat) (modified : Option Nat)

def FileTreeNode.name : FileTreeNode → String
  | .mk n _ _ _ _ _ _ _ => n

def FileTreeNode.path : FileTreeNode → FsPath
  | .mk _ p _ _ _ _ _ _ => p

def FileTreeNode.is_directory : FileTreeNode → Bool
  | .mk _ _ d _ _ _ _ _ => d

def FileTreeNode.title : FileTreeNode → Option String
  | .mk _ _ _ t _ _ _ _ => t

def FileTreeNode.children : FileTreeNode → List FileTreeNode
  | .mk _ _ _ _ cs _ _ _ => cs

def FileTreeNode.depth : FileTreeNode → Nat
  | .mk _ _ _ _ _ d _ _ => d

def FileTreeNode.file_count : FileTreeNode → Nat
  | .mk _ _ _ _ _ _ fc _ => fc

def FileTreeNode.modified : FileTreeNode → Option Nat
  | .mk _ _ _ _ _ _ _ m => m

instance : Inhabited FileTreeNode :=
  ⟨.mk "" [] false none [] 0 0 none⟩

/-- Overwrite a node's path (the node.path assignment in
scan_hq_directory's symlink-retry branch). -/
def setPath (t : FileTreeNode) (p : FsPath) : FileTreeNode :=
  match t with
  | .mk n _ d ti cs de fc m => .mk n p d ti cs de fc m

/-- The a_is_dir test of the sort comparator:
file_type().map(is_dir).unwrap_or(false), on the direct entry type. -/
def entryIsDirFlag (e : DirEntry) : Bool :=
  (e.dtype.map (fun t => t == Dtype.dir)).getD false

/-- The sort comparator of scan_dir_recursive: directories (by direct
file type) first, then OsString order on the raw names. -/
def entryCmp (a b : DirEntry) : Ordering :=
  match entryIsDirFlag a, entryIsDirFlag b with
  | true, false => Ordering.lt
  | false, true => Ordering.gt
  | _, _ =>
    if nameLt a.name b.name then Ordering.lt
    else if nameLt b.name a.name then Ordering.gt
    else Ordering.eq

/-- Insert an element into a list sorted by entryCmp, before the first
strictly greater element. -/
def insertSorted (x : DirEntry) : List DirEntry → List DirEntry
  | [] => [x]
  | y :: ys => if entryCmp x y = Ordering.lt then x :: y :: ys else y :: insertSorted x ys

/-- The entries_vec.sort_by of scan_dir_recursive (insertion sort;
distinct names make stability immaterial). -/
def sortEntries : List DirEntry → List DirEntry
  | [] => []
  | x :: xs => insertSorted x (sortEntries xs)

/-- The body of the per-entry loop of scan_dir_recursive: skip excluded
names, skip entries whose metadata fails, recurse into directories
keeping only subtrees with files, and turn .md files into leaves. -/
def scanEntry (fs : FS) (recurse : FsPath → Option FileTreeNode) (depth : Nat)
    (e : DirEntry) : Option FileTreeNode :=
  if should_exclude e.name then none
  else
    match metadata fs e.epath with
    | none => none
    | some (Entry.dir _) =>
      match recurse e.epath with
      | some child => if 0 < child.file_count then some child else none
      | none => none
    | some (Entry.file title modified) =>
      if endsWithDotMd e.name then
        some (FileTreeNode.mk e.name e.epath false title [] (depth + 1) 0 modified)
      else none
    | some (Entry.symlink _) => none

/-- The contribution of one kept child to the running file_count:
child.file_count for directories, 1 for .md files. -/
def childWeight (c : FileTreeNode) : Nat :=
  if c.is_directory then c.file_count else 1

/-- Node name: the path's final component, or the whole rendered path
when there is none. -/
def dirName (p : FsPath) : String :=
  match p.getLast? with
  | some n => n
  | none => pathToString p

/-- scan_dir_recursive with explicit fuel; with fuel = max_depth + 1 -
depth this is exactly the Rust recursion, whose guard depth > max_depth
makes the recursion depth-bounded. -/
def scanF (fs : FS) : Nat → FsPath → Nat → Nat → Option FileTreeNode
  | 0, _, _, _ => none
  | fuel + 1, path, depth, max_depth =>
    if depth > max_depth then none
    else
      match read_dir fs ((canonicalize fs path).getD path) with
      | none => none
      | some entries =>
        let children := (sortEntries entries).filterMap
          (scanEntry fs (fun q => scanF fs fuel q (depth + 1) max_depth) depth)
        some (FileTreeNode.mk (dirName path) path true none children depth
          ((children.map childWeight).sum) (get_modified_secs fs path))

/-- Model of scan_dir_recursive: resolve the root, list entries under
the canonical path, sort, and build the filtered tree. -/
def scan_dir_recursive (fs : FS) (path : FsPath) (depth max_depth : Nat) :
    Option FileTreeNode :=
  scanF fs (max_depth + 1 - depth) path depth max_depth

/-- Model of Iterator::position over pattern segments looking for the
wildcard. -/
def positionStar : List String → Option Nat
  | [] => none
  | p :: ps => if p == "*" then some 0 else (positionStar ps).map (fun i => i + 1)

/-- Model of expand_scope: split on '/', expand the first "*" segment
against the directory listing, keep directory-or-symlink entries with
non-excluded names, append the remaining segments, and keep paths that
are or canonicalize to directories.  Without a wildcard the joined path
is returned unchecked. -/
def expand_scope (fs : FS) (hq : FsPath) (scope : String) : List FsPath :=
  let parts := splitOnSlash scope
  match positionStar parts with
  | some pos =>
    match read_dir fs (hq ++ parts.take pos) with
    | none => []
    | some entries =>
      ((((entries.filter (fun e =>
            (e.dtype.map (fun t => t == Dtype.dir || t == Dtype.symlink)).getD false)).filter
          (fun e => !should_exclude e.name)).map
          (fun e => e.epath ++ parts.drop (pos + 1))).filter
          (fun p => isDir fs p || ((canonicalize fs p).map (fun c => isDir fs c)).getD false))
  | none => [hq ++ parts]

/-- Model of scan_hq_directory: fail when the HQ path is not a
directory; expand each scope; scan each concrete directory at depth 0,
max depth 15; keep roots with a positive file count; retry non-directory
scope paths through canonicalize, overwriting the node's path with the
original scope path. -/
def scan_hq_directory (fs : FS) (hq_path : FsPath) (scopes : List String) :
    Except String (List FileTreeNode) :=
  if !isDir fs hq_path then
    Except.error ("HQ path is not a directory: " ++ pathToString hq_path)
  else
    Except.ok (scopes.flatMap (fun scope =>
      (expand_scope fs hq_path scope).flatMap (fun scope_path =>
        if !isDir fs scope_path then
          match canonicalize fs scope_path with
          | some canonical =>
            if !isDir fs canonical then []
            else
              match scan_dir_recursive fs scope_path 0 15 with
              | some node => [setPath node scope_path]
              | none => []
          | none => []
        else
          match scan_dir_recursive fs scope_path 0 15 with
          | some node => if 0 < node.file_count then [node] else []
          | none => [])))

/-- The kind of a debounced event delivered by notify_debouncer_mini;
the source's wildcard arm behaves exactly like AnyContinuous. -/
inductive DebKind where
  | any
  | anyContinuous
deriving DecidableEq

/-- A raw debounced event handed to the watch callback. -/
structure RawEvent where
  path : FsPath
  kind : DebKind
deriving DecidableEq

/-- The payload emitted to the frontend (FsChangeEvent in the source);
the path is kept as segments, rendered with slashes by the Rust code. -/
structure FsChangeEvent where
  path : FsPath
  kind : String
deriving DecidableEq

/-- The kind classification of the watch callback: Any events re-check
existence (modify when the path exists, remove otherwise); AnyContinuous
and any other kinds are always modify. -/
def classifyKind (fs : FS) (ev : RawEvent) : String :=
  match ev.kind with
  | DebKind.any => if pathExists fs ev.path then "modify" else "remove"
  | DebKind.anyContinuous => "modify"

/-- The watch callback applied to one debounced batch: drop events whose
path has an excluded component, classify the rest, and emit them in
order. -/
def processEvents (fs : FS) (events : List RawEvent) : List FsChangeEvent :=
  events.filterMap (fun ev =>
    if watchSkip ev.path then none
    else some { path := ev.path, kind := classifyKind fs ev })

/-- External effects of start_watching: whether debouncer creation
succeeds and which OS watch registrations succeed. -/
structure WatchEnv where
  debouncer_ok : Bool
  watch_ok : FsPath → Bool

/-- The shared watcher slot: the set of directories kept watched by the
stored debouncer, when one is installed. -/
abbrev WatcherSlot := Option (List FsPath)

/-- The directory-collection loop of start_watching: expanded scope
paths that are directories, or whose canonical form is a directory. -/
def collectWatchDirs (fs : FS) (hq : FsPath) (scopes : List String) : List FsPath :=
  scopes.flatMap (fun scope =>
    (expand_scope fs hq scope).flatMap (fun dir =>
      if isDir fs dir then [dir]
      else
        match canonicalize fs dir with
        | some c => if isDir fs c then [dir] else []
        | none => []))

/-- The watch-registration loop: the first failing registration aborts
with an error. -/
def registerWatches (env : WatchEnv) : List FsPath → Except String Unit
  | [] => Except.ok ()
  | d :: ds =>
    if env.watch_ok d then registerWatches env ds
    else Except.error ("Failed to watch " ++ pathToString d)

/-- Model of start_watching: validate the HQ path, collect concrete
directories, create the debouncer, register every watch, and only then
swap the new debouncer into the shared slot.  Returns the command result
and the new slot contents. -/
def start_watching (fs : FS) (env : WatchEnv) (hq : FsPath) (scopes : List String)
    (st : WatcherSlot) : Except String Unit × WatcherSlot :=
  if !isDir fs hq then
    (Except.error ("HQ path is not a directory: " ++ pathToString hq), st)
  else
    let dirs := collectWatchDirs fs hq scopes
    if dirs.isEmpty then (Except.error "No valid directories to watch", st)
    else if !env.debouncer_ok then (Except.error "Failed to create file watcher", st)
    else
      match registerWatches env dirs with
      | Except.error e => (Except.error e, st)
      | Except.ok _ => (Except.ok (), some dirs)

/-- One parsed qmd search result (QmdSearchResult in the source). -/
structure QmdSearchResult where
  doc_id : String
  score : Int
  title : String
  file_path : String
  snippet : String

/-- The qmd search command's response shape. -/
structure QmdSearchResponse where
  results : List QmdSearchResult
  total : Nat
  error : Option String

/-- Failure kinds of launching an external command. -/
inductive CmdErr where
  | notFound
  | other (msg : String)

/-- Captured output of an external command. -/
structure CmdOutput where
  status_success : Bool
  stdout : String
  stderr : String

/-- External collaborators of qmd_search: running the qmd binary and the
serde_json parsers for whole-array and per-line output. -/
structure QmdEnv where
  run : List String → Except CmdErr CmdOutput
  parseArray : String → Option (List QmdSearchResult)
  parseLine : String → Option QmdSearchResult

/-- Model of qmd_search.  The second component records every invocation
of the external qmd binary (its argument list). -/
def qmd_search (env : QmdEnv) (query mode : String) (collection : Option String)
    (limit : Option Nat) : Except String QmdSearchResponse × List (List String) :=
  if rustTrim query == "" then
    (Except.ok { results := [], total := 0, error := none }, [])
  else
    let subcmd :=
      if mode == "keyword" then "search"
      else if mode == "semantic" then "vsearch"
      else "query"
    let n := limit.getD 10
    let args := [subcmd, query, "--json", "-n", Nat.repr n] ++
      (match collection with
       | some coll => if coll != "" && coll != "all" then ["-c", coll] else []
       | none => [])
    match env.run args with
    | Except.error CmdErr.notFound =>
      (Except.error "qmd not found in PATH. Install qmd for search functionality.", [args])
    | Except.error (CmdErr.other e) =>
      (Except.error ("Failed to execute qmd: " ++ e), [args])
    | Except.ok out =>
      if !out.status_success then
        (Except.ok { results := [], total := 0,
                     error := some ("qmd error: " ++ rustTrim out.stderr) }, [args])
      else
        let results := (env.parseArray out.stdout).getD
          (((linesOf out.stdout).filter (fun l => !(rustTrim l == ""))).filterMap env.parseLine)
        (Except.ok { results := results, total := results.length, error := none }, [args])

/-- Greatest node depth in the tree, limited to descent depth fuel; for
fuel at least the tree height this is the true maximum. -/
def treeMaxDepth : Nat → FileTreeNode → Nat
  | 0, t => t.depth
  | fuel + 1, t => t.children.foldl (fun acc c => max acc (treeMaxDepth fuel c)) t.depth

/-- Greatest directory-node depth in the tree (0 when none), limited to
descent depth fuel. -/
def treeMaxDirDepth : Nat → FileTreeNode → Nat
  | 0, t => if t.is_directory then t.depth else 0
  | fuel + 1, t =>
    t.children.foldl (fun acc c => max acc (treeMaxDirDepth fuel c))
      (if t.is_directory then t.depth else 0)

/-- Whether a children sequence places every directory node before every
non-directory node. -/
def dirsBeforeFiles : List FileTreeNode → Bool
  | [] => true
  | c :: rest =>
    if c.is_directory then dirsBeforeFiles rest
    else rest.all (fun d => !d.is_directory)

/-- A concrete HQ: one scope directory with a single Markdown file. -/
def fsW : FS :=
  ⟨[(["h"], Entry.dir none), (["h", "s"], Entry.dir none),
    (["h", "s", "a.md"], Entry.file (some "Alpha") (some 5))]⟩

/-- Nested directory chain of length k below the scope directory. -/
def deepPath (k : Nat) : FsPath := ["h", "s"] ++ List.replicate k "d"

/-- A concrete HQ whose scope directory has 15 nested subdirectories and
a Markdown file at the bottom. -/
def fs16 : FS :=
  ⟨(["h"], Entry.dir none) :: (["h", "s"], Entry.dir none) ::
    ((List.range 15).map (fun i => (deepPath (i + 1), Entry.dir none)) ++
      [(deepPath 15 ++ ["f.md"], Entry.file none none)])⟩

/-- A concrete directory holding a Markdown file and a symlink to a
directory that holds another Markdown file. -/
def fsC4 : FS :=
  ⟨[(["h"], Entry.dir none), (["h", "d"], Entry.dir none),
    (["h", "d", "a.md"], Entry.file none none),
    (["h", "d", "z"], Entry.symlink ["h", "t"]),
    (["h", "t"], Entry.dir none),
    (["h", "t", "b.md"], Entry.file none none)]⟩

/-- A concrete HQ with a plain scope directory and a wildcard-expandable
teams directory including a dot-prefixed entry. -/
def fs7 : FS :=
  ⟨[(["h"], Entry.dir none), (["h", "k"], Entry.dir none),
    (["h", "teams"], Entry.dir none),
    (["h", "teams", "alpha"], Entry.dir none),
    (["h", "teams", "alpha", "knowledge"], Entry.dir none),
    (["h", "teams", "alpha", "knowledge", "x.md"], Entry.file none none),
    (["h", "teams", ".hidden"], Entry.dir none),
    (["h", "teams", ".hidden", "knowledge"], Entry.dir none),
    (["h", "teams", "beta"], Entry.dir none),
    (["h", "teams", "beta", "knowledge"], Entry.dir none),
    (["h", "teams", "beta", "knowledge", "y.md"], Entry.file none none)]⟩

/-- A concrete HQ whose scope path is a symlink to a directory holding a
Markdown file. -/
def fs9 : FS :=
  ⟨[(["h"], Entry.dir none), (["h", "link"], Entry.symlink ["h", "real"]),
    (["h", "real"], Entry.dir none),
    (["h", "real", "a.md"], Entry.file none none)]⟩

/-- A resolved path carries its final entry in the store, and that entry
is never a symlink. -/
theorem resolveE_spec (fs : FS) :
    ∀ fuel p q e, resolveE fs fuel p = some (q, e) →
      lookup fs q = some e ∧ ∀ t, e ≠ Entry.symlink t := by
  intro fuel
  induction fuel with
  | zero => intro p q e h; simp [resolveE] at h
  | succ n ih =>
    intro p q e h
    simp only [resolveE] at h
    split at h
    · exact ih _ _ _ h
    · rename_i e' hne heq
      cases h
      exact ⟨heq, fun t ht => hne t ht⟩
    · exact absurd h (by simp)

/-- Resolution is idempotent: resolving an already canonical path gives
it back with the same entry. -/
theorem resolve_idem {fs : FS} {p q : FsPath} {e : Entry}
    (h : resolve fs p = some (q, e)) : resolve fs q = some (q, e) := by
  obtain ⟨hl, hs⟩ := resolveE_spec fs RESOLVE_FUEL p q e h
  show resolveE fs (63 + 1) q = some (q, e)
  cases e with
  | dir m => simp [resolveE, hl]
  | file t m => simp [resolveE, hl]
  | symlink t => exact absurd rfl (hs t)

/-- A path and its canonical form agree on being a directory, so the
symlink-retry branch of scan_hq_directory and start_watching can never
fire. -/
theorem canonicalize_isDir {fs : FS} {p c : FsPath}
    (h : canonicalize fs p = some c) : isDir fs c = isDir fs p := by
  obtain ⟨⟨q, e⟩, hr, hq⟩ := Option.map_eq_some'.mp h
  cases hq
  have hc := resolve_idem hr
  simp [isDir, metadata, hr, hc]

/-- When canonicalization fails, listing the directory fails too (both
go through resolution). -/
theorem canonicalize_none_read_dir {fs : FS} {p : FsPath}
    (h : canonicalize fs p = none) : read_dir fs p = none := by
  have hr : resolve fs p = none := by
    cases hres : resolve fs p with
    | none => rfl
    | some qe => rw [canonicalize, hres] at h; simp at h
  simp [read_dir, hr]

/-- Entries listed under a canonical directory have paths that extend it
by their own name, and carry the direct type of the entry at that
path. -/
theorem read_dir_entry_facts {fs : FS} {p c : FsPath} {es : List DirEntry}
    (hc : canonicalize fs p = some c) (hr : read_dir fs c = some es) :
    ∀ e ∈ es, e.epath = c ++ [e.name] ∧
      e.dtype = (lookup fs (c ++ [e.name])).map entryDtype := by
  obtain ⟨⟨q, e0⟩, hres, hq⟩ := Option.map_eq_some'.mp hc
  cases hq
  have hcc := resolve_idem hres
  intro e he
  rw [read_dir, hcc] at hr
  cases e0 with
  | dir m =>
    simp only [Option.some.injEq] at hr
    subst hr
    obtain ⟨n, _, hn⟩ := List.mem_map.mp he
    subst hn
    exact ⟨rfl, rfl⟩
  | file t m => simp at hr
  | symlink t =>
    obtain ⟨_, hs⟩ := resolveE_spec fs RESOLVE_FUEL p _ _ hres
    exact absurd rfl (hs t)

/-- Shape of every node returned by the scanner: it is a directory node
at the requested depth and path, and the depth guard admitted it. -/
theorem scanF_shape {fs : FS} {fuel : Nat} {p : FsPath} {d m : Nat} {t : FileTreeNode}
    (h : scanF fs fuel p d m = some t) :
    t.path = p ∧ t.depth = d ∧ t.is_directory = true ∧ d ≤ m := by
  cases fuel with
  | zero => simp [scanF] at h
  | succ n =>
    simp only [scanF] at h
    split at h
    · simp at h
    · rename_i hguard
      split at h
      · simp at h
      · cases h
        exact ⟨rfl, rfl, rfl, by omega⟩

/-- C1: every root node returned by scan_hq_directory has a positive
file count; zero-file scope directories are omitted.  The retry branch
cannot contribute because a path and its canonical form agree on being a
directory. -/
theorem C1_roots_have_positive_file_count
    (fs : FS) (hq : FsPath) (scopes : List String) (res : List FileTreeNode)
    (t : FileTreeNode) (hok : scan_hq_directory fs hq scopes = Except.ok res)
    (ht : t ∈ res) : 0 < t.file_count := by
  rw [scan_hq_directory] at hok
  split at hok
  · exact absurd hok (by simp)
  · cases hok
    obtain ⟨scope, _, hmem1⟩ := List.mem_flatMap.mp ht
    obtain ⟨scope_path, _, hmem2⟩ := List.mem_flatMap.mp hmem1
    split at hmem2
    · rename_i hnotdir
      split at hmem2
      · rename_i canonical hcanon
        have hdir : isDir fs canonical = isDir fs scope_path := canonicalize_isDir hcanon
        split at hmem2
        · simp at hmem2
        · rename_i hcdir
          simp only [Bool.not_eq_true', Bool.not_eq_false] at hnotdir hcdir
          rw [hdir, hnotdir] at hcdir
          exact absurd hcdir (by simp)
      · simp at hmem2
    · split at hmem2
      · rename_i node hscan
        split at hmem2
        · rename_i hfc
          rw [List.mem_singleton.mp hmem2]
          exact hfc
        · simp at hmem2
      · simp at hmem2

/-- C1 witness: the sample HQ scan yields a root, whose file count is
positive by the theorem. -/
theorem C1_witness :
    0 < (((scan_hq_directory fsW ["h"] ["s"]).toOption.getD []).headD default).file_count :=
  C1_roots_have_positive_file_count fsW ["h"] ["s"]
    ((scan_hq_directory fsW ["h"] ["s"]).toOption.getD [])
    (((scan_hq_directory fsW ["h"] ["s"]).toOption.getD []).headD default)
    rfl (List.Mem.head _)

/-- Folding max over values all bounded by B stays bounded by B. -/
theorem foldl_max_le {α : Type} (f : α → Nat) (B : Nat) :
    ∀ (l : List α) (a : Nat), a ≤ B → (∀ c ∈ l, f c ≤ B) →
      l.foldl (fun acc c => max acc (f c)) a ≤ B := by
  intro l
  induction l with
  | nil => intro a ha _; simpa using ha
  | cons c cs ih =>
    intro a ha hl
    simp only [List.foldl_cons]
    exact ih _ (Nat.max_le.mpr ⟨ha, hl c (by simp)⟩) (fun d hd => hl d (by simp [hd]))

/-- Case analysis on a successful per-entry step: either a recursive
directory child with a positive file count, or a Markdown leaf at depth
one below the current node. -/
theorem scanEntry_some_cases {fs : FS} {rec : FsPath → Option FileTreeNode} {d : Nat}
    {e : DirEntry} {c : FileTreeNode} (h : scanEntry fs rec d e = some c) :
    should_exclude e.name = false ∧
      ((∃ mo, metadata fs e.epath = some (Entry.dir mo) ∧ rec e.epath = some c ∧
          0 < c.file_count) ∨
        (∃ ti mo, metadata fs e.epath = some (Entry.file ti mo) ∧ endsWithDotMd e.name = true ∧
          c = FileTreeNode.mk e.name e.epath false ti [] (d + 1) 0 mo)) := by
  rw [scanEntry] at h
  split at h
  · exact absurd h (by simp)
  · rename_i hexc
    refine ⟨by simpa using hexc, ?_⟩
    split at h
    · exact absurd h (by simp)
    · rename_i mo hmeta
      split at h
      · rename_i child hrec
        split at h
        · rename_i hfc
          cases h
          exact Or.inl ⟨mo, hmeta, hrec, hfc⟩
        · exact absurd h (by simp)
      · exact absurd h (by simp)
    · rename_i ti mo hmeta
      split at h
      · rename_i hmd
        cases h
        exact Or.inr ⟨ti, mo, hmeta, hmd, rfl⟩
      · exact absurd h (by simp)
    · exact absurd h (by simp)

/-- Depth measures of a Markdown leaf node. -/
theorem treeMaxDepth_leaf (g : Nat) (n : String) (p : FsPath) (ti : Option String)
    (d : Nat) (mo : Option Nat) :
    treeMaxDepth g (FileTreeNode.mk n p false ti [] d 0 mo) = d ∧
      treeMaxDirDepth g (FileTreeNode.mk n p false ti [] d 0 mo) = 0 := by
  cases g <;> exact ⟨rfl, rfl⟩

/-- Every node of a scanned tree lies at depth at most max_depth + 1,
and every directory node at depth at most max_depth. -/
theorem scanF_depth_bound (fs : FS) (m : Nat) :
    ∀ g fuel p d t, scanF fs fuel p d m = some t →
      treeMaxDepth g t ≤ m + 1 ∧ treeMaxDirDepth g t ≤ m := by
  intro g
  induction g with
  | zero =>
    intro fuel p d t h
    obtain ⟨-, hd, hdir, hdm⟩ := scanF_shape h
    constructor
    · show t.depth ≤ m + 1
      omega
    · show (if t.is_directory then t.depth else 0) ≤ m
      rw [hdir]
      simpa using by omega
  | succ g ih =>
    intro fuel p d t h
    cases fuel with
    | zero => simp [scanF] at h
    | succ f =>
      simp only [scanF] at h
      split at h
      · simp at h
      · rename_i hguard
        split at h
        · simp at h
        · rename_i entries hrd
          cases h
          have hdm : d ≤ m := by omega
          constructor
          · simp only [treeMaxDepth, FileTreeNode.children, FileTreeNode.depth]
            apply foldl_max_le
            · omega
            · intro c hc
              obtain ⟨e, _, hce⟩ := List.mem_filterMap.mp hc
              obtain ⟨-, hcases⟩ := scanEntry_some_cases hce
              rcases hcases with ⟨mo, -, hrec, -⟩ | ⟨ti, mo, -, -, hcn⟩
              · exact (ih f e.epath (d + 1) c hrec).1
              · rw [hcn]
                rw [(treeMaxDepth_leaf g e.name e.epath ti (d + 1) mo).1]
                omega
          · simp only [treeMaxDirDepth, FileTreeNode.children, FileTreeNode.depth,
              FileTreeNode.is_directory, if_pos]
            apply foldl_max_le
            · exact hdm
            · intro c hc
              obtain ⟨e, _, hce⟩ := List.mem_filterMap.mp hc
              obtain ⟨-, hcases⟩ := scanEntry_some_cases hce
              rcases hcases with ⟨mo, -, hrec, -⟩ | ⟨ti, mo, -, -, hcn⟩
              · exact (ih f e.epath (d + 1) c hrec).2
              · rw [hcn]
                rw [(treeMaxDepth_leaf g e.name e.epath ti (d + 1) mo).2]
                omega

/-- Overwriting a node's path does not change its depth measures. -/
theorem treeMaxDepth_setPath (g : Nat) (t : FileTreeNode) (p : FsPath) :
    treeMaxDepth g (setPath t p) = treeMaxDepth g t ∧
      treeMaxDirDepth g (setPath t p) = treeMaxDirDepth g t := by
  cases t
  cases g <;> exact ⟨rfl, rfl⟩

/-- C2 (amended): scan_hq_directory scans with depth 0 and max depth 15,
so no node of a returned tree lies deeper than 16, and no directory node
deeper than 15.  (Markdown leaves of a depth-15 directory are emitted at
depth 16 because the guard only limits recursion.) -/
theorem C2_depth_bounded_by_sixteen
    (fs : FS) (hq : FsPath) (scopes : List String) (res : List FileTreeNode)
    (t : FileTreeNode) (hok : scan_hq_directory fs hq scopes = Except.ok res)
    (ht : t ∈ res) :
    ∀ fuel, treeMaxDepth fuel t ≤ 16 ∧ treeMaxDirDepth fuel t ≤ 15 := by
  intro fuel
  rw [scan_hq_directory] at hok
  split at hok
  · exact absurd hok (by simp)
  · cases hok
    obtain ⟨scope, _, hmem1⟩ := List.mem_flatMap.mp ht
    obtain ⟨scope_path, _, hmem2⟩ := List.mem_flatMap.mp hmem1
    split at hmem2
    · split at hmem2
      · rename_i canonical hcanon
        split at hmem2
        · simp at hmem2
        · split at hmem2
          · rename_i node hscan
            rw [List.mem_singleton.mp hmem2]
            rw [(treeMaxDepth_setPath fuel node scope_path).1,
              (treeMaxDepth_setPath fuel node scope_path).2]
            rw [scan_dir_recursive] at hscan
            exact scanF_depth_bound fs 15 fuel _ scope_path 0 node hscan
          · simp at hmem2
      · simp at hmem2
    · split at hmem2
      · rename_i node hscan
        split at hmem2
        · rw [List.mem_singleton.mp hmem2]
          rw [scan_dir_recursive] at hscan
          exact scanF_depth_bound fs 15 fuel _ scope_path 0 node hscan
        · simp at hmem2
      · simp at hmem2

/-- C2 counterexample: with 15 nested directories below the scope
directory, the Markdown file at the bottom is emitted at depth 16, so
the claimed bound of 15 on every node fails. -/
theorem C2_claim_counterexample :
    ¬ (∀ (fs : FS) (hq : FsPath) (scopes : List String) (res : List FileTreeNode)
        (t : FileTreeNode), scan_hq_directory fs hq scopes = Except.ok res → t ∈ res →
        ∀ fuel, treeMaxDepth fuel t ≤ 15) := by
  intro h
  have h16 := h fs16 ["h"] ["s"] ((scan_hq_directory fs16 ["h"] ["s"]).toOption.getD [])
    (((scan_hq_directory fs16 ["h"] ["s"]).toOption.getD []).headD default)
    rfl (List.Mem.head _) 17
  exact absurd h16 (by decide)

/-- C2 witness: the sample scan's tree observes both amended bounds. -/
theorem C2_witness :
    treeMaxDepth 2 (((scan_hq_directory fsW ["h"] ["s"]).toOption.getD []).headD default) ≤ 16 ∧
      treeMaxDirDepth 2 (((scan_hq_directory fsW ["h"] ["s"]).toOption.getD []).headD default)
        ≤ 15 :=
  C2_depth_bounded_by_sixteen fsW ["h"] ["s"]
    ((scan_hq_directory fsW ["h"] ["s"]).toOption.getD [])
    (((scan_hq_directory fsW ["h"] ["s"]).toOption.getD []).headD default)
    rfl (List.Mem.head _) 2

/-- The component test inside the watch callback agrees with
should_exclude on every name: the denylist is the same and both add the
leading-dot rule. -/
theorem watchComponent_eq_should_exclude :
    ∀ name, watchComponentExcluded name = should_exclude name := by
  intro name
  simp only [watchComponentExcluded, should_exclude, WATCH_EXCLUDES, List.any_cons,
    List.any_nil, Bool.or_false]

/-- C3 (amended): surviving events of debounced kind Any are classified
by re-checking existence at delivery time (modify when present, remove
when absent); surviving AnyContinuous events are always delivered as
modify, with no existence check. -/
theorem C3_any_events_classified_by_existence
    (fs : FS) (evs : List RawEvent) (ev : RawEvent)
    (hmem : ev ∈ evs) (hskip : watchSkip ev.path = false) :
    (ev.kind = DebKind.any →
      FsChangeEvent.mk ev.path (if pathExists fs ev.path then "modify" else "remove") ∈
        processEvents fs evs) ∧
    (ev.kind = DebKind.anyContinuous →
      FsChangeEvent.mk ev.path "modify" ∈ processEvents fs evs) := by
  constructor
  · intro hk
    exact List.mem_filterMap.mpr ⟨ev, hmem, by simp [hskip, classifyKind, hk]⟩
  · intro hk
    exact List.mem_filterMap.mpr ⟨ev, hmem, by simp [hskip, classifyKind, hk]⟩

/-- C3 counterexample: an AnyContinuous debounced event for a path that
does not exist at delivery time is still delivered as modify, so the
kind is not determined by the existence re-check alone. -/
theorem C3_claim_counterexample :
    ¬ (∀ (fs : FS) (evs : List RawEvent) (e : FsChangeEvent), e ∈ processEvents fs evs →
        (e.kind = "remove" ↔ pathExists fs e.path = false)) := by
  intro h
  have hmod := h (FS.mk []) [RawEvent.mk ["a", "b.md"] DebKind.anyContinuous]
    (FsChangeEvent.mk ["a", "b.md"] "modify") (by decide)
  exact absurd (hmod.mpr (by decide)) (by decide)

/-- C3 witness: a surviving Any event on an absent path is delivered
with the existence-determined kind. -/
theorem C3_witness :
    watchSkip ["a", "b.md"] = false ∧
      FsChangeEvent.mk ["a", "b.md"]
          (if pathExists (FS.mk []) ["a", "b.md"] then "modify" else "remove") ∈
        processEvents (FS.mk []) [RawEvent.mk ["a", "b.md"] DebKind.any] :=
  ⟨by decide,
    (C3_any_events_classified_by_existence (FS.mk [])
      [RawEvent.mk ["a", "b.md"] DebKind.any] (RawEvent.mk ["a", "b.md"] DebKind.any)
      (by decide) (by decide)).1 rfl⟩

/-- C6: the watch callback's per-component exclusion test is
extensionally the should_exclude predicate, and consequently no
delivered event's path contains an excluded component. -/
theorem C6_watch_exclusion_matches_scan :
    (∀ name, watchComponentExcluded name = should_exclude name) ∧
    (∀ (fs : FS) (evs : List RawEvent) (e : FsChangeEvent), e ∈ processEvents fs evs →
      ∀ comp ∈ e.path, should_exclude comp = false) := by
  refine ⟨watchComponent_eq_should_exclude, ?_⟩
  intro fs evs e he comp hcomp
  obtain ⟨ev, _, hev⟩ := List.mem_filterMap.mp he
  split at hev
  · exact absurd hev (by simp)
  · rename_i hskip
    cases hev
    rw [← watchComponent_eq_should_exclude]
    have hfalse : watchSkip ev.path = false := by
      simpa using hskip
    rw [watchSkip, List.any_eq_false] at hfalse
    simpa using hfalse comp (by simpa using hcomp)

/-- C6 witness: the two exclusion tests agree on a denylisted name, and
a delivered event's components are unexcluded. -/
theorem C6_witness :
    watchComponentExcluded ".git" = should_exclude ".git" ∧ should_exclude "a" = false :=
  ⟨C6_watch_exclusion_matches_scan.1 ".git",
    C6_watch_exclusion_matches_scan.2 (FS.mk []) [RawEvent.mk ["a", "b.md"] DebKind.any]
      (FsChangeEvent.mk ["a", "b.md"] "remove") (by decide) "a" (by decide)⟩

/-- C8: every event delivered by the watch callback is a modify or a
remove; the create kind is never emitted. -/
theorem C8_no_create_events
    (fs : FS) (evs : List RawEvent) (e : FsChangeEvent)
    (he : e ∈ processEvents fs evs) : e.kind = "modify" ∨ e.kind = "remove" := by
  obtain ⟨ev, _, hev⟩ := List.mem_filterMap.mp he
  split at hev
  · exact absurd hev (by simp)
  · cases hev
    show classifyKind fs ev = "modify" ∨ classifyKind fs ev = "remove"
    rw [classifyKind]
    cases ev.kind with
    | any =>
      by_cases hpe : pathExists fs ev.path
      · exact Or.inl (by simp [hpe])
      · exact Or.inr (by simp [hpe])
    | anyContinuous => exact Or.inl rfl

/-- C8 witness: a delivered event on an existing path has kind modify or
remove. -/
theorem C8_witness :
    FsChangeEvent.mk ["h", "s", "a.md"] "modify" ∈
        processEvents fsW [RawEvent.mk ["h", "s", "a.md"] DebKind.any] ∧
      ((FsChangeEvent.mk ["h", "s", "a.md"] "modify").kind = "modify" ∨
        (FsChangeEvent.mk ["h", "s", "a.md"] "modify").kind = "remove") :=
  ⟨by decide,
    C8_no_create_events fsW [RawEvent.mk ["h", "s", "a.md"] DebKind.any]
      (FsChangeEvent.mk ["h", "s", "a.md"] "modify") (by decide)⟩

/-- Insertion keeps exactly the old elements plus the new one. -/
theorem mem_insertSorted (x y : DirEntry) :
    ∀ l, x ∈ insertSorted y l ↔ x = y ∨ x ∈ l := by
  intro l
  induction l with
  | nil => simp [insertSorted]
  | cons z zs ih =>
    rw [insertSorted]
    split
    · simp [List.mem_cons]
    · simp only [List.mem_cons, ih]
      tauto

/-- Sorting keeps exactly the same elements. -/
theorem mem_sortEntries (x : DirEntry) : ∀ l, x ∈ sortEntries l ↔ x ∈ l := by
  intro l
  induction l with
  | nil => simp [sortEntries]
  | cons z zs ih =>
    rw [sortEntries, mem_insertSorted]
    simp [ih]

/-- C9: scanning a root that canonicalizes elsewhere reports the root
node under the passed-in path, while every child path extends the
canonical target (entries are enumerated under the resolved
directory). -/
theorem C9_symlink_children_under_canonical
    (fs : FS) (root : FsPath) (d m : Nat) (tgt : FsPath) (t : FileTreeNode)
    (hc : canonicalize fs root = some tgt) (_hne : tgt ≠ root)
    (hscan : scan_dir_recursive fs root d m = some t) :
    t.path = root ∧ ∀ c ∈ t.children, ∃ n, c.path = tgt ++ [n] := by
  rw [scan_dir_recursive] at hscan
  refine ⟨(scanF_shape hscan).1, ?_⟩
  intro c hcmem
  rcases hk : m + 1 - d with _ | f
  · rw [hk] at hscan
    simp [scanF] at hscan
  · rw [hk] at hscan
    simp only [scanF] at hscan
    split at hscan
    · simp at hscan
    · rw [hc] at hscan
      simp only [Option.getD_some] at hscan
      split at hscan
      · simp at hscan
      · rename_i entries hrd
        cases hscan
        obtain ⟨e, hes, hce⟩ := List.mem_filterMap.mp hcmem
        have he : e ∈ entries := (mem_sortEntries e entries).mp hes
        obtain ⟨hepath, -⟩ := read_dir_entry_facts hc hrd e he
        refine ⟨e.name, ?_⟩
        obtain ⟨-, hcases⟩ := scanEntry_some_cases hce
        rcases hcases with ⟨mo, -, hrec, -⟩ | ⟨ti, mo, -, -, hcn⟩
        · rw [(scanF_shape hrec).1, hepath]
        · rw [hcn]
          show e.epath = tgt ++ [e.name]
          exact hepath

/-- C9 witness: scanning the symlinked scope directory reports the
symlink path at the root while its child lives under the resolved
target. -/
theorem C9_witness :
    ((scan_dir_recursive fs9 ["h", "link"] 0 15).getD default).path = ["h", "link"] :=
  (C9_symlink_children_under_canonical fs9 ["h", "link"] 0 15 ["h", "real"]
    ((scan_dir_recursive fs9 ["h", "link"] 0 15).getD default)
    rfl (by decide) rfl).1

/-- C5: whenever start_watching reports an error, the shared watcher
slot is returned unchanged: no partial watch set is installed and a
previous subscription is untouched. -/
theorem C5_error_leaves_watcher_state
    (fs : FS) (env : WatchEnv) (hq : FsPath) (scopes : List String) (st : WatcherSlot)
    (msg : String) (herr : (start_watching fs env hq scopes st).1 = Except.error msg) :
    (start_watching fs env hq scopes st).2 = st := by
  by_cases h1 : isDir fs hq
  · by_cases h2 : (collectWatchDirs fs hq scopes).isEmpty
    · simp [start_watching, h1, h2]
    · by_cases h3 : env.debouncer_ok
      · cases hr : registerWatches env (collectWatchDirs fs hq scopes) with
        | error e => simp [start_watching, h1, h2, h3, hr]
        | ok u =>
          rw [start_watching] at herr
          simp [h1, h2, h3, hr] at herr
      · simp [start_watching, h1, h2, h3]
  · simp [start_watching, h1]

/-- C5 witness: starting on a non-directory HQ path fails and leaves the
previously installed subscription in place. -/
theorem C5_witness :
    (start_watching (FS.mk []) (WatchEnv.mk true (fun _ => true)) ["h"] ["s"]
        (some [["w"]])).1 = Except.error "HQ path is not a directory: h" ∧
      (start_watching (FS.mk []) (WatchEnv.mk true (fun _ => true)) ["h"] ["s"]
        (some [["w"]])).2 = some [["w"]] :=
  ⟨rfl,
    C5_error_leaves_watcher_state (FS.mk []) (WatchEnv.mk true (fun _ => true)) ["h"] ["s"]
      (some [["w"]]) "HQ path is not a directory: h" rfl⟩

/-- C10: a query that trims to nothing short-circuits qmd_search with an
empty successful response and no invocation of the qmd binary. -/
theorem C10_blank_query_short_circuits
    (env : QmdEnv) (query mode : String) (collection : Option String) (limit : Option Nat)
    (hblank : rustTrim query = "") :
    qmd_search env query mode collection limit =
      (Except.ok (QmdSearchResponse.mk [] 0 none), []) := by
  rw [qmd_search.eq_def]
  simp [hblank]

/-- C10 witness: a whitespace-only query returns the empty response
without running qmd. -/
theorem C10_witness :
    rustTrim "  " = "" ∧
      qmd_search (QmdEnv.mk (fun _ => Except.error CmdErr.notFound) (fun _ => none)
          (fun _ => none)) "  " "keyword" none none =
        (Except.ok (QmdSearchResponse.mk [] 0 none), []) :=
  ⟨by decide,
    C10_blank_query_short_circuits
      (QmdEnv.mk (fun _ => Except.error CmdErr.notFound) (fun _ => none) (fun _ => none))
      "  " "keyword" none none (by decide)⟩

/-- Lexicographic comparison is irreflexive. -/
theorem charListLt_irrefl : ∀ a, charListLt a a = false := by
  intro a
  induction a with
  | nil => rfl
  | cons c cs ih => simp [charListLt, ih]

/-- Lexicographic comparison is transitive. -/
theorem charListLt_trans :
    ∀ a b c, charListLt a b = true → charListLt b c = true → charListLt a c = true := by
  intro a
  induction a with
  | nil =>
    intro b c hab hbc
    cases b with
    | nil => simp [charListLt] at hab
    | cons y ys =>
      cases c with
      | nil => simp [charListLt] at hbc
      | cons z zs => simp [charListLt]
  | cons x xs ih =>
    intro b c hab hbc
    cases b with
    | nil => simp [charListLt] at hab
    | cons y ys =>
      cases c with
      | nil => simp [charListLt] at hbc
      | cons z zs =>
        rw [charListLt] at hab hbc ⊢
        rcases lt_trichotomy x y with hxy | hxy | hxy
        · rcases lt_trichotomy y z with hyz | hyz | hyz
          · simp [lt_trans hxy hyz]
          · subst hyz
            simp [hxy]
          · rw [if_neg (lt_asymm hyz), if_pos hyz] at hbc
            exact absurd hbc (by simp)
        · subst hxy
          rw [if_neg (lt_irrefl x), if_neg (lt_irrefl x)] at hab
          rcases lt_trichotomy x z with hyz | hyz | hyz
          · simp [hyz]
          · subst hyz
            rw [if_neg (lt_irrefl x), if_neg (lt_irrefl x)] at hbc ⊢
            exact ih ys zs hab hbc
          · rw [if_neg (lt_asymm hyz), if_pos hyz] at hbc
            exact absurd hbc (by simp)
        · rw [if_neg (lt_asymm hxy), if_pos hxy] at hab
          exact absurd hab (by simp)

/-- Lexicographic comparison is asymmetric. -/
theorem charListLt_asymm {a b : List Char} (h : charListLt a b = true) :
    charListLt b a = false := by
  by_contra hba
  rw [Bool.not_eq_false] at hba
  have := charListLt_trans a b a h hba
  rw [charListLt_irrefl] at this
  exact absurd this (by simp)

/-- When neither list is lexicographically below the other they are
equal. -/
theorem charListLt_false_antisymm :
    ∀ a b, charListLt a b = false → charListLt b a = false → a = b := by
  intro a
  induction a with
  | nil =>
    intro b hab _
    cases b with
    | nil => rfl
    | cons y ys => simp [charListLt] at hab
  | cons x xs ih =>
    intro b hab hba
    cases b with
    | nil => simp [charListLt] at hba
    | cons y ys =>
      rw [charListLt] at hab hba
      rcases lt_trichotomy x y with hxy | hxy | hxy
      · rw [if_pos hxy] at hab
        exact absurd hab (by simp)
      · subst hxy
        rw [if_neg (lt_irrefl x), if_neg (lt_irrefl x)] at hab hba
        rw [ih ys hab hba]
      · rw [if_pos hxy] at hba
        exact absurd hba (by simp)

/-- The at-most order induced by nameLt is transitive. -/
theorem nameLt_false_trans {a b c : String}
    (hba : nameLt b a = false) (hcb : nameLt c b = false) : nameLt c a = false := by
  rw [nameLt] at hba hcb ⊢
  by_contra hca
  rw [Bool.not_eq_false] at hca
  cases hbc : charListLt b.data c.data with
  | true =>
    have := charListLt_trans b.data c.data a.data hbc hca
    rw [hba] at this
    exact absurd this (by simp)
  | false =>
    rw [charListLt_false_antisymm b.data c.data hbc hcb] at hba
    rw [hca] at hba
    exact absurd hba (by simp)

/-- The non-strict order extracted from the entry comparator. -/
def entryLe (a b : DirEntry) : Prop := entryCmp a b ≠ Ordering.gt

/-- Totality of the comparator order: an element not strictly below
another is at least it. -/
theorem entryLe_total {x y : DirEntry} (h : entryCmp x y ≠ Ordering.lt) : entryLe y x := by
  rw [entryLe, entryCmp]
  rw [entryCmp] at h
  cases hx : entryIsDirFlag x <;> cases hy : entryIsDirFlag y <;> rw [hx, hy] at h <;>
    by_cases h1 : nameLt x.name y.name <;> by_cases h2 : nameLt y.name x.name <;>
      simp_all

/-- From a non-gt comparison chain on names, the second name is not
below the first. -/
theorem nameChain_le {a b : String}
    (h : (if nameLt a b then Ordering.lt
          else if nameLt b a then Ordering.gt else Ordering.eq) ≠ Ordering.gt) :
    nameLt b a = false := by
  cases hba : nameLt b a with
  | false => rfl
  | true =>
    cases hab : nameLt a b with
    | true =>
      have hasym := charListLt_asymm (a := a.data) (b := b.data) hab
      rw [nameLt] at hba
      rw [hba] at hasym
      exact absurd hasym (by simp)
    | false =>
      rw [if_neg (by simp [hab]), if_pos hba] at h
      exact absurd rfl h

/-- Transitivity of the comparator order. -/
theorem entryLe_trans {x y z : DirEntry} (hxy : entryLe x y) (hyz : entryLe y z) :
    entryLe x z := by
  rw [entryLe, entryCmp] at hxy hyz ⊢
  cases hx : entryIsDirFlag x <;> cases hy : entryIsDirFlag y <;>
    cases hz : entryIsDirFlag z <;> rw [hx, hy] at hxy <;> rw [hy, hz] at hyz
  case false.false.false =>
    have h3 := nameLt_false_trans (nameChain_le hxy) (nameChain_le hyz)
    by_cases hxz : nameLt x.name z.name <;> simp [hxz, h3]
  case false.false.true => simp at hyz
  case false.true.false => simp at hxy
  case false.true.true => simp at hxy
  case true.false.false => simp
  case true.false.true => simp at hyz
  case true.true.false => simp
  case true.true.true =>
    have h3 := nameLt_false_trans (nameChain_le hxy) (nameChain_le hyz)
    by_cases hxz : nameLt x.name z.name <;> simp [hxz, h3]

/-- An element strictly below another is at most it. -/
theorem entryLe_of_lt {x y : DirEntry} (h : entryCmp x y = Ordering.lt) : entryLe x y := by
  rw [entryLe, h]
  simp

/-- Inserting into a sorted list keeps it sorted. -/
theorem pairwise_insertSorted (x : DirEntry) :
    ∀ l, List.Pairwise entryLe l → List.Pairwise entryLe (insertSorted x l) := by
  intro l
  induction l with
  | nil => intro _; simp [insertSorted, List.pairwise_cons]
  | cons y ys ih =>
    intro h
    obtain ⟨hy, hys⟩ := List.pairwise_cons.mp h
    rw [insertSorted]
    split
    · rename_i hlt
      refine List.pairwise_cons.mpr ⟨?_, h⟩
      intro z hz
      rcases List.mem_cons.mp hz with rfl | hz'
      · exact entryLe_of_lt hlt
      · exact entryLe_trans (entryLe_of_lt hlt) (hy z hz')
    · rename_i hnlt
      refine List.pairwise_cons.mpr ⟨?_, ih hys⟩
      intro z hz
      rcases (mem_insertSorted z x ys).mp hz with rfl | hz'
      · exact entryLe_total hnlt
      · exact hy z hz'

/-- The entry sort produces a list sorted by the comparator order. -/
theorem pairwise_sortEntries : ∀ l, List.Pairwise entryLe (sortEntries l) := by
  intro l
  induction l with
  | nil => simp [sortEntries]
  | cons x xs ih => exact pairwise_insertSorted x (sortEntries xs) ih

/-- When the direct lookup is not a symlink, metadata is that lookup. -/
theorem metadata_of_nonsymlink_lookup {fs : FS} {p : FsPath}
    (hlk : ∀ t, lookup fs p ≠ some (Entry.symlink t)) :
    metadata fs p = lookup fs p := by
  rw [metadata]
  show (resolveE fs (63 + 1) p).map _ = _
  cases hl : lookup fs p with
  | none => simp [resolveE, hl]
  | some e =>
    cases e with
    | dir m => simp [resolveE, hl]
    | file t m => simp [resolveE, hl]
    | symlink t => exact absurd hl (hlk t)

/-- Name of a path extended by one segment. -/
theorem dirName_append_singleton (p : FsPath) (n : String) :
    dirName (p ++ [n]) = n := by
  rw [dirName, List.getLast?_append_cons]
  rfl

/-- Every scanned node is a directory node named after its path's last
segment. -/
theorem scanF_name {fs : FS} {fuel : Nat} {p : FsPath} {d m : Nat} {t : FileTreeNode}
    (h : scanF fs fuel p d m = some t) : t.name = dirName p ∧ t.is_directory = true := by
  cases fuel with
  | zero => simp [scanF] at h
  | succ n =>
    simp only [scanF] at h
    split at h
    · simp at h
    · split at h
      · simp at h
      · cases h
        exact ⟨rfl, rfl⟩

/-- A sorted-by-R list filter-maps to a sorted-by-S list when the map
respects the relation on members. -/
theorem pairwise_filterMap {α β : Type} (f : α → Option β) {R : α → α → Prop}
    {S : β → β → Prop} :
    ∀ l : List α, l.Pairwise R →
      (∀ a ∈ l, ∀ b ∈ l, R a b → ∀ x, f a = some x → ∀ y, f b = some y → S x y) →
      (l.filterMap f).Pairwise S := by
  intro l
  induction l with
  | nil => intro _ _; simp
  | cons a as ih =>
    intro hl h
    obtain ⟨ha, has⟩ := List.pairwise_cons.mp hl
    rw [List.filterMap_cons]
    cases hfa : f a with
    | none =>
      exact ih has (fun p hp q hq => h p (by simp [hp]) q (by simp [hq]))
    | some x =>
      refine List.pairwise_cons.mpr ⟨?_, ?_⟩
      · intro y hy
        obtain ⟨b, hb, hfb⟩ := List.mem_filterMap.mp hy
        exact h a (by simp) b (by simp [hb]) (ha b hb) x hfa y hfb
      · exact ih has (fun p hp q hq => h p (by simp [hp]) q (by simp [hq]))

/-- Under a name-and-flag correspondence, scanEntry output nodes inherit
the entry's name and its direct directory flag. -/
theorem scanEntry_name_flag {fs : FS} {rec : FsPath → Option FileTreeNode} {d : Nat}
    {e : DirEntry} {c : FileTreeNode}
    (hdty : e.dtype = (lookup fs e.epath).map entryDtype)
    (hlast : dirName e.epath = e.name)
    (hsym : e.dtype ≠ some Dtype.symlink)
    (hrecname : ∀ q u, rec q = some u → u.name = dirName q ∧ u.is_directory = true)
    (hce : scanEntry fs rec d e = some c) :
    c.name = e.name ∧ c.is_directory = entryIsDirFlag e := by
  have hlk : ∀ u, lookup fs e.epath ≠ some (Entry.symlink u) := by
    intro u hl
    rw [hl] at hdty
    exact hsym (by simpa [entryDtype] using hdty)
  have hmeta : metadata fs e.epath = lookup fs e.epath := metadata_of_nonsymlink_lookup hlk
  obtain ⟨-, hcases⟩ := scanEntry_some_cases hce
  rcases hcases with ⟨mo, hm, hrec, -⟩ | ⟨ti, mo, hm, -, hcn⟩
  · rw [hmeta] at hm
    obtain ⟨hname, hdir⟩ := hrecname _ _ hrec
    refine ⟨by rw [hname, hlast], ?_⟩
    rw [hdir]
    simp [entryIsDirFlag, hdty, hm, entryDtype]
  · rw [hmeta] at hm
    rw [hcn]
    refine ⟨rfl, ?_⟩
    show false = entryIsDirFlag e
    simp [entryIsDirFlag, hdty, hm, entryDtype]

/-- Directories precede non-directories in any list pairwise ordered by
the directory-propagation relation. -/
theorem dirsBeforeFiles_of_pairwise :
    ∀ l : List FileTreeNode,
      List.Pairwise (fun c1 c2 => c2.is_directory = true → c1.is_directory = true) l →
      dirsBeforeFiles l = true := by
  intro l
  induction l with
  | nil => intro _; rfl
  | cons c cs ih =>
    intro h
    obtain ⟨hc, hcs⟩ := List.pairwise_cons.mp h
    rw [dirsBeforeFiles]
    split
    · exact ih hcs
    · rename_i hnd
      rw [List.all_eq_true]
      intro x hx
      cases hxb : x.is_directory with
      | false => simp
      | true => exact absurd (hc x hx hxb) hnd

/-- C4 (amended): children are ordered by the sort key taken from the
direct (symlink-unfollowed) entry type, so when no listed entry is a
symlink, all directory children precede all file children and names
ascend case-sensitively within each group.  (A symlink entry carries the
non-directory sort key even when it resolves to a directory.) -/
theorem C4_children_grouped_and_sorted
    (fs : FS) (p : FsPath) (d m : Nat) (t : FileTreeNode)
    (hscan : scan_dir_recursive fs p d m = some t)
    (hnosym : ∀ e ∈ (read_dir fs ((canonicalize fs p).getD p)).getD [],
      e.dtype ≠ some Dtype.symlink) :
    dirsBeforeFiles t.children = true ∧
      List.Pairwise (fun c1 c2 => c1.is_directory = c2.is_directory →
        nameLt c2.name c1.name = false) t.children := by
  rw [scan_dir_recursive] at hscan
  rcases hk : m + 1 - d with _ | f
  · rw [hk] at hscan
    simp [scanF] at hscan
  · rw [hk] at hscan
    simp only [scanF] at hscan
    split at hscan
    · simp at hscan
    · cases hc : canonicalize fs p with
      | none =>
        rw [hc, Option.getD_none, canonicalize_none_read_dir hc] at hscan
        simp at hscan
      | some tgt =>
        rw [hc, Option.getD_some] at hscan
        split at hscan
        · simp at hscan
        · rename_i entries hrd
          cases hscan
          rw [hc, Option.getD_some, hrd, Option.getD_some] at hnosym
          have hS : ((sortEntries entries).filterMap
              (scanEntry fs (fun q => scanF fs f q (d + 1) m) d)).Pairwise
              (fun c1 c2 => (c2.is_directory = true → c1.is_directory = true) ∧
                (c1.is_directory = c2.is_directory → nameLt c2.name c1.name = false)) := by
            apply pairwise_filterMap _ _ (pairwise_sortEntries entries)
            intro a ha b hb hab c1 hc1 c2 hc2
            have ha' : a ∈ entries := (mem_sortEntries a entries).mp ha
            have hb' : b ∈ entries := (mem_sortEntries b entries).mp hb
            obtain ⟨hpa, hda⟩ := read_dir_entry_facts hc hrd a ha'
            obtain ⟨hpb, hdb⟩ := read_dir_entry_facts hc hrd b hb'
            have hfa := scanEntry_name_flag (by rw [hda, hpa]) (by rw [hpa]; exact dirName_append_singleton tgt a.name)
              (hnosym a ha') (fun q u hu => scanF_name hu) hc1
            have hfb := scanEntry_name_flag (by rw [hdb, hpb]) (by rw [hpb]; exact dirName_append_singleton tgt b.name)
              (hnosym b hb') (fun q u hu => scanF_name hu) hc2
            constructor
            · intro h2
              rw [hfa.2]
              rw [hfb.2] at h2
              cases hflag : entryIsDirFlag a with
              | true => rfl
              | false =>
                rw [entryLe, entryCmp, hflag, h2] at hab
                exact absurd rfl hab
            · intro heq
              rw [hfa.1, hfb.1]
              rw [hfa.2, hfb.2] at heq
              rw [entryLe, entryCmp] at hab
              cases hflag : entryIsDirFlag a with
              | true =>
                rw [hflag] at heq hab
                rw [← heq] at hab
                exact nameChain_le hab
              | false =>
                rw [hflag] at heq hab
                rw [← heq] at hab
                exact nameChain_le hab
          exact ⟨dirsBeforeFiles_of_pairwise _ (hS.imp (fun h => h.1)),
            hS.imp (fun h => h.2)⟩

/-- Concrete directory with a plain subdirectory and a Markdown file,
no symlinks. -/
def fsO : FS :=
  ⟨[(["h"], Entry.dir none), (["h", "d"], Entry.dir none),
    (["h", "d", "a.md"], Entry.file none none),
    (["h", "d", "b"], Entry.dir none),
    (["h", "d", "b", "c.md"], Entry.file none none)]⟩

/-- C4 witness: a symlink-free directory scan lists the subdirectory
before the file, sorted as claimed. -/
theorem C4_witness :
    (∀ e ∈ (read_dir fsO ((canonicalize fsO ["h", "d"]).getD ["h", "d"])).getD [],
        e.dtype ≠ some Dtype.symlink) ∧
      dirsBeforeFiles ((scan_dir_recursive fsO ["h", "d"] 0 15).getD default).children
        = true :=
  ⟨by decide,
    (C4_children_grouped_and_sorted fsO ["h", "d"] 0 15
      ((scan_dir_recursive fsO ["h", "d"] 0 15).getD default) rfl (by decide)).1⟩

/-- C4 counterexample: a symlink child resolving to a directory is
sorted with the non-directory key, so a directory node can follow a file
node among the children. -/
theorem C4_claim_counterexample :
    ¬ (∀ (fs : FS) (p : FsPath) (d m : Nat) (t : FileTreeNode),
        scan_dir_recursive fs p d m = some t →
        dirsBeforeFiles t.children = true ∧
          List.Pairwise (fun c1 c2 => c1.is_directory = c2.is_directory →
            nameLt c2.name c1.name = false) t.children) := by
  intro h
  have hfst := (h fsC4 ["h", "d"] 0 15
    ((scan_dir_recursive fsC4 ["h", "d"] 0 15).getD default) rfl).1
  exact absurd hfst (by decide)

/-- A segment list without a wildcard has no wildcard position. -/
theorem positionStar_none : ∀ l : List String, "*" ∉ l → positionStar l = none := by
  intro l
  induction l with
  | nil => intro _; rfl
  | cons a as ih =>
    intro h
    rw [positionStar]
    have ha : (a == "*") = false := by
      simp only [beq_eq_false_iff_ne, ne_eq]
      intro hq
      exact h (by simp [hq])
    rw [ha, ih (fun hm => h (by simp [hm]))]
    rfl

/-- The first wildcard of a list whose head part is wildcard-free sits
exactly after that head part. -/
theorem positionStar_append (post : List String) :
    ∀ pre : List String, "*" ∉ pre →
      positionStar (pre ++ "*" :: post) = some pre.length := by
  intro pre
  induction pre with
  | nil => intro _; simp [positionStar]
  | cons a as ih =>
    intro h
    rw [List.cons_append, positionStar]
    have ha : (a == "*") = false := by
      simp only [beq_eq_false_iff_ne, ne_eq]
      intro hq
      exact h (by simp [hq])
    rw [ha, ih (fun hm => h (by simp [hm]))]
    rfl

/-- C7: a wildcard-free pattern expands to the single joined path with
no existence check; a pattern with exactly one wildcard expands, in
directory-listing order, to the directory-or-symlink entries of the path
before the wildcard whose names are not excluded, extended by the
segments after the wildcard, keeping paths that are or canonicalize to
directories. -/
theorem C7_expand_scope_characterized (fs : FS) (hq : FsPath) (scope : String) :
    ("*" ∉ splitOnSlash scope → expand_scope fs hq scope = [hq ++ splitOnSlash scope]) ∧
    (∀ pre post : List String, splitOnSlash scope = pre ++ "*" :: post → "*" ∉ pre →
      "*" ∉ post →
      expand_scope fs hq scope =
        match read_dir fs (hq ++ pre) with
        | none => []
        | some entries =>
          ((((entries.filter (fun e =>
                (e.dtype.map (fun ty => ty == Dtype.dir || ty == Dtype.symlink)).getD
                  false)).filter
              (fun e => !should_exclude e.name)).map
              (fun e => e.epath ++ post)).filter
              (fun q => isDir fs q ||
                ((canonicalize fs q).map (fun c => isDir fs c)).getD false))) := by
  constructor
  · intro h
    simp only [expand_scope, positionStar_none _ h]
  · intro pre post hsplit hpre _hpost
    have hpos : positionStar (splitOnSlash scope) = some pre.length := by
      rw [hsplit]
      exact positionStar_append post pre hpre
    have htake : (splitOnSlash scope).take pre.length = pre := by
      rw [hsplit]
      exact List.take_left pre _
    have hdrop : (splitOnSlash scope).drop (pre.length + 1) = post := by
      rw [hsplit]
      have hassoc : pre ++ "*" :: post = (pre ++ ["*"]) ++ post := by simp
      rw [hassoc]
      have hlen : pre.length + 1 = (pre ++ ["*"]).length := by simp
      rw [hlen]
      exact List.drop_left _ _
    simp only [expand_scope, hpos]
    rw [htake, hdrop]

/-- C7 witness: the sample HQ expands a plain pattern to its joined
path, and a one-wildcard pattern to the two team knowledge directories,
omitting the dot-prefixed entry. -/
theorem C7_witness :
    expand_scope fs7 ["h"] "k" = [["h", "k"]] ∧
      expand_scope fs7 ["h"] "teams/*/knowledge" =
        [["h", "teams", "alpha", "knowledge"], ["h", "teams", "beta", "knowledge"]] := by
  constructor
  · have h := (C7_expand_scope_characterized fs7 ["h"] "k").1 (by decide)
    rw [h]
    decide
  · have h := (C7_expand_scope_characterized fs7 ["h"] "teams/*/knowledge").2
      ["teams"] ["knowledge"] (by decide) (by decide) (by decide)
    rw [h]
    decide

end HqDocs
